import Mathlib

/-!
Verification of the batched, re-authenticating, retrying download
orchestrator in `gsemantique/data/download.py` (classes `Downloader` and
`_STACDownloader`), via a shallow embedding of its control flow and data
handling in Lean 4.

Conventions of the embedding:
* items are represented generically or by their string ids;
* Python lists become Lean `List`s, Python float arithmetic on sizes and
  ratios becomes exact `ℚ` arithmetic;
* the filesystem state that the code manipulates (the output directory
  holding the `item-collection.json` artifact and one flat subdirectory of
  asset files per item — the layout the downloader itself produces) is made
  an explicit record;
* fallible Python operations (`list.remove`, use of possibly-unbound
  locals) return `Option` / `Except`.
-/

set_option maxRecDepth 8192

namespace Gsemantique

/-! ## Batching (`_STACDownloader._async_download`, lines 408–411)

The attempt loop is `for i in range(0, len(self.item_coll), batch_size):`
with `batch = self.item_coll[i : i + batch_size]`, where
`batch_size = reauth_batch_size or len(self.item_coll)`. -/

/-- The index list `range(0, N, b)` for a positive step `b`:
`[0, b, 2*b, ...]` with `ceil(N / b)` elements. -/
def rangeStep (N b : Nat) : List Nat :=
  (List.range ((N + b - 1) / b)).map (· * b)

/-- The Python slice `l[i : i + b]` (for a natural start index `i`). -/
def pySlice (l : List α) (i b : Nat) : List α :=
  (l.drop i).take b

/-- The batches produced by one whole-collection attempt: the slices
`item_coll[i : i + b]` for `i in range(0, len(item_coll), b)`. -/
def batches (l : List α) (b : Nat) : List (List α) :=
  (rangeStep l.length b).map (fun i => pySlice l i b)

/-- The Python expression `reauth_batch_size or len(item_coll)`: `None` and `0` are
falsy, so both fall back to the collection length. -/
def effBatchSize (reauth : Option Nat) (N : Nat) : Nat :=
  match reauth with
  | none => N
  | some b => if b = 0 then N else b

/-- Number of `STACCube._sign_metadata` invocations in one attempt when
every signing call succeeds at once: one per batch when
`reauth_batch_size is not None`, and none at all otherwise (the `else`
branch at line 431–432 skips signing entirely). -/
def signInvocations (l : List α) (reauth : Option Nat) : Nat :=
  match reauth with
  | none => 0
  | some _ => (batches l (effBatchSize reauth l.length)).length

/-- Recursive reformulation of `batches`, used to reason by induction. -/
def batchesRec (l : List α) (b : Nat) : List (List α) :=
  if h : l.length = 0 ∨ b = 0 then []
  else l.take b :: batchesRec (l.drop b) b
  termination_by l.length
  decreasing_by
    simp only [List.length_drop]
    omega

theorem batchesRec_nil (b : Nat) : batchesRec ([] : List α) b = [] := by
  rw [batchesRec]; simp

theorem batchesRec_cons (l : List α) (b : Nat) (hl : l ≠ []) (hb : b ≠ 0) :
    batchesRec l b = l.take b :: batchesRec (l.drop b) b := by
  rw [batchesRec]
  have : l.length ≠ 0 := by simpa [List.length_eq_zero] using hl
  simp [this, hb]

theorem rangeStep_zero_left (b : Nat) : rangeStep 0 b = [] := by
  have h : (b - 1) / b = 0 := by
    rcases Nat.eq_zero_or_pos b with rfl | hb
    · rfl
    · exact Nat.div_eq_of_lt (by omega)
  simp [rangeStep, h]

/-- For `N ≥ 1` and `b ≥ 1`, `range(0, N, b)` is `0` followed by the
shifted `range(0, N - b, b)`. -/
theorem rangeStep_succ (N b : Nat) (hN : N ≠ 0) (hb : b ≠ 0) :
    rangeStep N b = 0 :: (rangeStep (N - b) b).map (· + b) := by
  have hb1 : 1 ≤ b := Nat.pos_of_ne_zero hb
  have hcount : (N + b - 1) / b = (N - b + b - 1) / b + 1 := by
    rcases Nat.lt_or_ge N b with h | h
    · have h1 : (N + b - 1) / b = 1 :=
        Nat.div_eq_of_lt_le (by omega) (by omega)
      have h2 : N - b = 0 := by omega
      have h3 : (N - b + b - 1) / b = 0 := by
        rw [h2]; exact Nat.div_eq_of_lt (by omega)
      omega
    · have h1 : N + b - 1 = (N - b + b - 1) + b := by omega
      rw [h1, Nat.add_div_right _ hb1]
  simp only [rangeStep]
  rw [hcount, List.range_succ_eq_map]
  simp only [List.map_cons, Nat.zero_mul, List.map_map]
  congr 1
  apply List.map_congr_left
  intro a _
  simp [Function.comp, Nat.succ_mul]

/-- The range/slice loop of the source agrees with the recursive formulation. -/
theorem batches_eq_batchesRec (l : List α) (b : Nat) (hb : b ≠ 0) :
    batches l b = batchesRec l b := by
  generalize hn : l.length = n
  induction n using Nat.strong_induction_on generalizing l with
  | _ n ih =>
    rcases eq_or_ne l [] with rfl | hl
    · simp [batches, batchesRec_nil, rangeStep_zero_left]
    · have hn0 : n ≠ 0 := by
        rw [← hn]; simpa [List.length_eq_zero] using hl
      have hdlen : (l.drop b).length = n - b := by simp [hn]
      have hrec : batches (l.drop b) b = batchesRec (l.drop b) b :=
        ih (n - b) (by have := Nat.pos_of_ne_zero hb; omega) _ hdlen
      rw [batchesRec_cons l b hl hb, ← hrec]
      simp only [batches, List.length_drop, hn]
      rw [rangeStep_succ n b hn0 hb]
      simp [pySlice, List.drop_drop, Nat.add_comm, Function.comp]

/-- Concatenating the batches of an attempt recovers the collection. -/
theorem batchesRec_flatten (l : List α) (b : Nat) (hb : b ≠ 0) :
    (batchesRec l b).flatten = l := by
  generalize hn : l.length = n
  induction n using Nat.strong_induction_on generalizing l with
  | _ n ih =>
    rcases eq_or_ne l [] with rfl | hl
    · simp [batchesRec_nil]
    · rw [batchesRec_cons l b hl hb]
      have hdrop : (l.drop b).length = n - b := by simp [hn]
      have hpos : 0 < l.length := List.length_pos.mpr hl
      have := ih (n - b) (by have := Nat.pos_of_ne_zero hb; omega) (l.drop b) hdrop
      simp [this]

theorem batches_flatten (l : List α) (b : Nat) (hb : b ≠ 0) :
    (batches l b).flatten = l := by
  rw [batches_eq_batchesRec l b hb, batchesRec_flatten l b hb]

/-- Each batch is the contiguous slice `l[k*b : k*b + b]` of the input. -/
theorem batches_get (l : List α) (b : Nat) (k : Nat)
    (hk : k < (batches l b).length) :
    (batches l b).get ⟨k, hk⟩ = pySlice l (k * b) b := by
  simp only [batches, List.get_eq_getElem, List.getElem_map]
  congr 1
  simp [rangeStep]

/-- The attempt performs `ceil(N / b)` batches. -/
theorem batches_length (l : List α) (b : Nat) :
    (batches l b).length = (l.length + b - 1) / b := by
  simp [batches, rangeStep]

/-! ## Claims C2 and C3: batching and signing count -/

/-- C2: for every collection and every re-signing batch size `b ≥ 1`, one
whole-collection attempt splits the collection into `ceil(N/b)` contiguous,
non-overlapping slices that partition it exactly (their concatenation is the
original collection and batch `k` is the slice `l[k*b : k*b + b]`), each
signed exactly once before fetch; in particular a 25-item collection with
`b = 10` performs exactly 3 signing invocations on slices of sizes
10, 10 and 5. -/
theorem claim_C2_batch_partition :
    (∀ (α : Type) (l : List α) (b : Nat), 1 ≤ b →
      (batches l b).flatten = l ∧
      (batches l b).length = (l.length + b - 1) / b ∧
      (∀ k (hk : k < (batches l b).length),
        (batches l b).get ⟨k, hk⟩ = pySlice l (k * b) b) ∧
      signInvocations l (some b) = (l.length + b - 1) / b) ∧
    ((batches (List.range 25) 10).map List.length = [10, 10, 5] ∧
      signInvocations (List.range 25) (some 10) = 3) := by
  constructor
  · intro α l b hb
    have hb0 : b ≠ 0 := by omega
    refine ⟨batches_flatten l b hb0, batches_length l b, batches_get l b, ?_⟩
    simp [signInvocations, effBatchSize, hb0, batches_length]
  · exact ⟨by decide, by decide⟩

/-- C2 witness: the general part of `claim_C2_batch_partition` evaluated on
the concrete 25-item collection with batch size 10. -/
theorem claim_C2_batch_partition_witness :
    (batches (List.range 25) 10).flatten = List.range 25 :=
  (claim_C2_batch_partition.1 Nat (List.range 25) 10 (by norm_num)).1

/-- C3 counterexample: with re-signing disabled (`reauth_batch_size = None`)
a 5-item collection is processed as one whole-collection batch, but the
number of signing invocations is 0, not 1: the `else` branch of the reauth
check skips `STACCube._sign_metadata` entirely. -/
theorem claim_C3_counterexample :
    batches (List.range 5) (effBatchSize none (List.range 5).length) =
      [List.range 5] ∧
    signInvocations (List.range 5) none ≠ 1 := by
  exact ⟨by decide, by decide⟩

/-- C3 (amended): when periodic re-signing is disabled, a whole-collection
attempt processes the entire (non-empty) item collection as a single batch,
and that batch is never signed — signing is skipped entirely. -/
theorem claim_C3_single_batch_unsigned (α : Type) (l : List α) (hl : l ≠ []) :
    batches l (effBatchSize none l.length) = [l] ∧
    signInvocations l none = 0 := by
  have hN : l.length ≠ 0 := by simpa [List.length_eq_zero] using hl
  refine ⟨?_, rfl⟩
  show batches l l.length = [l]
  have h1 : (l.length + l.length - 1) / l.length = 1 :=
    Nat.div_eq_of_lt_le (by omega) (by omega)
  simp [batches, rangeStep, h1, List.range_succ, pySlice]

/-- C3 witness: the amended statement on a concrete one-item collection. -/
theorem claim_C3_single_batch_unsigned_witness :
    batches [0] (effBatchSize none (List.length [0])) = [[0]] ∧
    signInvocations [0] none = 0 :=
  claim_C3_single_batch_unsigned Nat [0] (by decide)

/-! ## Claim C4: merging per-batch artifacts
(`_STACDownloader._async_download`, lines 465–477)

The merge step does
`coll_paths = [f for f in os.listdir(out_dir) if f.startswith("item-collection-batch-")]`,
reads each file in listing order, extends one accumulator list with its
items, removes each file, and saves the concatenation as
`item-collection.json`. `os.listdir` returns names in arbitrary order, so
the embedding takes the directory listing (file name together with the
items the file holds) as an explicit argument. -/

/-- The check `f.startswith("item-collection-batch-")`, written over the
character list so that it is kernel-computable. -/
def hasBatchTag (name : String) : Bool :=
  "item-collection-batch-".toList.isPrefixOf name.toList

/-- The merge step: keep the listed files carrying the batch tag, in
listing order; return the concatenation of their items (what is saved to
`item-collection.json`) and the names of the files that are deleted. -/
def mergeColls (listing : List (String × List α)) : List α × List String :=
  let batchFiles := listing.filter (fun p => hasBatchTag p.1)
  ((batchFiles.map Prod.snd).flatten, batchFiles.map Prod.fst)

theorem perm_flatten {l₁ l₂ : List (List α)} (h : l₁.Perm l₂) :
    l₁.flatten.Perm l₂.flatten := by
  induction h with
  | nil => rfl
  | cons x _ ih => simpa using ih.append_left x
  | swap x y l =>
      simpa [List.append_assoc] using
        (@List.perm_append_comm _ y x).append_right l.flatten
  | trans _ _ ih1 ih2 => exact ih1.trans ih2

/-- C4 counterexample: an attempt wrote the batch artifacts
`item-collection-batch-0.json` (holding item `0`) and
`item-collection-batch-25.json` (holding item `1`), in that batch order;
when `os.listdir` returns them in the opposite order the merged collection
is `[1, 0]`, not the batch-order concatenation `[0, 1]`. -/
theorem claim_C4_counterexample :
    (mergeColls [("item-collection-batch-25.json", [1]),
        ("item-collection-batch-0.json", [0])]).1 ≠
      ([[0], [1]] : List (List Nat)).flatten := by
  decide

/-- C4 (amended): the merge step concatenates the per-batch artifacts in
directory-listing order — which is arbitrary, not necessarily batch order —
without re-sorting and without deduplicating ids; for every listing order
the items of the merged artifact are exactly the union of the per-batch
successes (each item exactly as often as the batches produced it, none
omitted), and every per-batch artifact is deleted; this holds for every
batch size, whether or not it divides the collection size evenly. -/
theorem claim_C4_merge_is_permutation (α : Type)
    (artifacts extras listing : List (String × List α))
    (hperm : listing.Perm (artifacts ++ extras))
    (hart : ∀ p ∈ artifacts, hasBatchTag p.1 = true)
    (hex : ∀ p ∈ extras, hasBatchTag p.1 = false) :
    (mergeColls listing).1.Perm (artifacts.map Prod.snd).flatten ∧
    (mergeColls listing).2.Perm (artifacts.map Prod.fst) := by
  have hfil : (listing.filter (fun p => hasBatchTag p.1)).Perm artifacts := by
    have h1 := hperm.filter (fun p => hasBatchTag p.1)
    rw [List.filter_append] at h1
    have h2 : artifacts.filter (fun p => hasBatchTag p.1) = artifacts :=
      List.filter_eq_self.mpr hart
    have h3 : extras.filter (fun p => hasBatchTag p.1) = [] := by
      simp only [List.filter_eq_nil_iff]
      intro p hp
      simp [hex p hp]
    rw [h2, h3, List.append_nil] at h1
    exact h1
  exact ⟨perm_flatten (hfil.map Prod.snd), hfil.map Prod.fst⟩

/-- C4 witness: the amended statement evaluated on the two-batch listing of
the counterexample (listed in reversed order, with an unrelated directory
entry present). -/
theorem claim_C4_merge_is_permutation_witness :
    (mergeColls [("item-collection-batch-25.json", [1]),
        ("item-collection.json", [7]),
        ("item-collection-batch-0.json", [0])]).1.Perm
      ([("item-collection-batch-0.json", [0]),
        ("item-collection-batch-25.json", [1])].map Prod.snd).flatten :=
  (claim_C4_merge_is_permutation Nat
    [("item-collection-batch-0.json", [0]), ("item-collection-batch-25.json", [1])]
    [("item-collection.json", [7])]
    _
    (by decide) (by decide) (by decide)).1

/-! ## Claims C1 and C9: the whole-collection retry loop
(`_STACDownloader.run`, lines 259–279)

```
for i in range(self.retries):
    await self._async_download(**self.kwargs)       # full attempt, original coll
    self._remove_empty_items(self.out_dir)
    coll = pystac.ItemCollection.from_file(coll_path)
    ratio = len(coll) / len(self.item_coll)
    if ratio == 1.0: break
    elif i < self.retries - 1: print("Retry ...")
    else: print("Not all items retrieved ...")
print the final summary: retrieved count, requested count, and ratio
```

Each iteration re-runs a full attempt over the original `self.item_coll`
(the loop body never shrinks it); the outcome of attempt `i` — the number
of items in the merged-and-cleaned `item-collection.json` — is abstracted
as `attempt i`. The locals `coll` and `ratio` are assigned only inside the
loop body, so the two final prints raise `UnboundLocalError` when the loop
body never ran. -/

/-- The per-attempt records `(len(coll), ratio)` produced by the loop,
starting at loop index `i` with `remaining` iterations left; the list ends
early exactly when an attempt reaches `ratio == 1.0`. `requested` is
`len(self.item_coll)`, fixed across attempts. -/
def runTrace (attempt : Nat → Nat) (requested : Nat) :
    Nat → Nat → List (Nat × ℚ)
  | _, 0 => []
  | i, remaining + 1 =>
    let n := attempt i
    let r : ℚ := (n : ℚ) / (requested : ℚ)
    (n, r) :: (if r = 1 then [] else runTrace attempt requested (i + 1) remaining)

/-- The observable result of `run`: the values of the locals `coll` (its
length) and `ratio` at the final prints, or `UnboundLocalError` when no
attempt ever assigned them. -/
def runResult (attempt : Nat → Nat) (requested retries : Nat) :
    Except String (Nat × ℚ) :=
  match (runTrace attempt requested 0 retries).getLast? with
  | none => Except.error "UnboundLocalError"
  | some st => Except.ok st

/-- Shape of the trace of the retry loop, for any start index and any
positive iteration budget: at least one and at most `remaining` attempts
run; attempt record `j` is `(attempt (i+j), attempt (i+j) / requested)`;
every non-final attempt has ratio ≠ 1; if the loop stopped before
exhausting the budget then the final ratio is 1; and the final record is
the one of the last attempt that ran. -/
theorem runTrace_spec (attempt : Nat → Nat) (requested : Nat) :
    ∀ remaining i, 1 ≤ remaining →
      1 ≤ (runTrace attempt requested i remaining).length ∧
      (runTrace attempt requested i remaining).length ≤ remaining ∧
      (∀ j, j < (runTrace attempt requested i remaining).length →
        (runTrace attempt requested i remaining).get? j =
          some (attempt (i + j), (attempt (i + j) : ℚ) / (requested : ℚ))) ∧
      (∀ j, j + 1 < (runTrace attempt requested i remaining).length →
        ((attempt (i + j) : ℚ) / (requested : ℚ)) ≠ 1) ∧
      ((runTrace attempt requested i remaining).length < remaining →
        ((attempt (i + ((runTrace attempt requested i remaining).length - 1)) : ℚ) /
          (requested : ℚ)) = 1) ∧
      (runTrace attempt requested i remaining).getLast? =
        some (attempt (i + ((runTrace attempt requested i remaining).length - 1)),
          (attempt (i + ((runTrace attempt requested i remaining).length - 1)) : ℚ) /
            (requested : ℚ)) := by
  intro remaining
  induction remaining with
  | zero => intro i h; omega
  | succ rem ih =>
    intro i _
    by_cases hr : ((attempt i : ℚ) / (requested : ℚ)) = 1
    · have htr : runTrace attempt requested i (rem + 1) =
          [(attempt i, (attempt i : ℚ) / (requested : ℚ))] := by
        simp [runTrace, hr]
      refine ⟨by simp [htr], by simp [htr], ?_, ?_, ?_, by simp [htr]⟩
      · intro j hj
        rw [htr] at hj ⊢
        simp only [List.length_cons, List.length_nil] at hj
        have hj0 : j = 0 := by omega
        subst hj0
        simp
      · intro j hj
        rw [htr] at hj
        simp only [List.length_cons, List.length_nil] at hj
        omega
      · intro _
        simpa [htr] using hr
    · rcases Nat.eq_zero_or_pos rem with rfl | hrem
      · have htr : runTrace attempt requested i 1 =
            [(attempt i, (attempt i : ℚ) / (requested : ℚ))] := by
          simp [runTrace]
        refine ⟨by simp [htr], by simp [htr], ?_, ?_, ?_, by simp [htr]⟩
        · intro j hj
          rw [htr] at hj ⊢
          simp only [List.length_cons, List.length_nil] at hj
          have hj0 : j = 0 := by omega
          subst hj0
          simp
        · intro j hj
          rw [htr] at hj
          simp only [List.length_cons, List.length_nil] at hj
          omega
        · intro hlt
          rw [htr] at hlt
          simp at hlt
      · have htr : runTrace attempt requested i (rem + 1) =
            (attempt i, (attempt i : ℚ) / (requested : ℚ)) ::
              runTrace attempt requested (i + 1) rem := by
          simp [runTrace, hr]
        obtain ⟨ih1, ih2, ih3, ih4, ih5, ih6⟩ := ih (i + 1) hrem
        set rest := runTrace attempt requested (i + 1) rem with hrest
        have hlen : (runTrace attempt requested i (rem + 1)).length =
            rest.length + 1 := by
          simp [htr]
        refine ⟨by omega, by omega, ?_, ?_, ?_, ?_⟩
        · intro j hj
          rw [htr]
          match j with
          | 0 => simp
          | j' + 1 =>
            rw [hlen] at hj
            have := ih3 j' (by omega)
            simpa [Nat.add_assoc, Nat.add_comm 1 j'] using this
        · intro j hj
          rw [hlen] at hj
          match j with
          | 0 => simpa using hr
          | j' + 1 =>
            have := ih4 j' (by omega)
            simpa [Nat.add_assoc, Nat.add_comm 1 j'] using this
        · intro hlt
          rw [hlen] at hlt
          have h5 := ih5 (by omega)
          have harith : i + (rest.length + 1 - 1) = i + 1 + (rest.length - 1) := by
            omega
          rw [hlen, harith]
          exact h5
        · rcases hre : rest with _ | ⟨y, ys⟩
          · rw [hre] at ih1; simp at ih1
          · have hlast : (runTrace attempt requested i (rem + 1)).getLast? =
                rest.getLast? := by
              rw [htr, hre, List.getLast?_cons_cons]
            have harith : i + ((runTrace attempt requested i (rem + 1)).length - 1) =
                i + 1 + (rest.length - 1) := by
              rw [hlen, hre]
              simp only [List.length_cons]
              omega
            rw [hlast, harith]
            exact ih6

/-- C1: for every item collection (`requested ≥ 1`, since
`len(coll) / len(self.item_coll)` requires a non-empty input in Python) and
retry budget `retries ≥ 1` (default 3), the retry loop runs a full download
attempt over the original collection each iteration (record `j` of the
trace is `attempt j` against the same `requested`); it stops early exactly
when the ratio equals 1 (every non-final attempt has ratio ≠ 1, and a stop
before the budget means the final ratio is 1); it stops after at most
`retries` attempts without raising a fault (the result is `ok`); and the
reported ratio is the one computed on the final attempt. -/
theorem claim_C1_retry_loop (attempt : Nat → Nat) (requested retries : Nat)
    (hreq : 1 ≤ requested) (hret : 1 ≤ retries) :
    1 ≤ (runTrace attempt requested 0 retries).length ∧
    (runTrace attempt requested 0 retries).length ≤ retries ∧
    (∀ j, j < (runTrace attempt requested 0 retries).length →
      (runTrace attempt requested 0 retries).get? j =
        some (attempt j, (attempt j : ℚ) / (requested : ℚ))) ∧
    (∀ j, j + 1 < (runTrace attempt requested 0 retries).length →
      ((attempt j : ℚ) / (requested : ℚ)) ≠ 1) ∧
    ((runTrace attempt requested 0 retries).length < retries →
      ((attempt ((runTrace attempt requested 0 retries).length - 1) : ℚ) /
        (requested : ℚ)) = 1) ∧
    runResult attempt requested retries =
      Except.ok (attempt ((runTrace attempt requested 0 retries).length - 1),
        (attempt ((runTrace attempt requested 0 retries).length - 1) : ℚ) /
          (requested : ℚ)) := by
  obtain ⟨h1, h2, h3, h4, h5, h6⟩ := runTrace_spec attempt requested retries 0 hret
  simp only [Nat.zero_add] at h3 h4 h5 h6
  refine ⟨h1, h2, h3, h4, h5, ?_⟩
  unfold runResult
  rw [h6]

/-- C1 witness: the retry-loop theorem evaluated with `requested = 5`,
`retries = 3` and an attempt that always retrieves all 5 items. -/
theorem claim_C1_retry_loop_witness :
    1 ≤ (runTrace (fun _ => 5) 5 0 3).length :=
  (claim_C1_retry_loop (fun _ => 5) 5 3 (by norm_num) (by norm_num)).1

/-- C9: `run` terminates normally only under the precondition
`retries ≥ 1`; constructed with `retries = 0` it performs no download
attempt (the trace is empty) and fails with an unbound-local error when
printing the final summary, because `coll` and `ratio` are assigned only
inside the attempt loop; with `retries ≥ 1` the summary prints normally. -/
theorem claim_C9_retries_zero_unbound_local (attempt : Nat → Nat)
    (requested : Nat) :
    runTrace attempt requested 0 0 = [] ∧
    runResult attempt requested 0 = Except.error "UnboundLocalError" ∧
    (∀ retries, 1 ≤ retries →
      ∃ st, runResult attempt requested retries = Except.ok st) := by
  refine ⟨rfl, rfl, ?_⟩
  intro retries hret
  obtain ⟨_, _, _, _, _, h6⟩ := runTrace_spec attempt requested retries 0 hret
  exact ⟨_, by unfold runResult; rw [h6]⟩

/-- C9 witness: with `retries = 0` the summary print fails with the
unbound-local error, and with `retries = 2` it succeeds. -/
theorem claim_C9_retries_zero_unbound_local_witness :
    runResult (fun _ => 4) 4 0 = Except.error "UnboundLocalError" ∧
    ∃ st, runResult (fun _ => 4) 4 2 = Except.ok st :=
  ⟨(claim_C9_retries_zero_unbound_local (fun _ => 4) 4).2.1,
    (claim_C9_retries_zero_unbound_local (fun _ => 4) 4).2.2 2 (by norm_num)⟩

/-! ## Claim C7: the per-batch signing retry loop
(`_STACDownloader._async_download`, lines 413–430)

```
signed = False
on_hold_count = 0
while not signed:
    try:
        batch = STACCube._sign_metadata(list(batch))
        signed = True
    except:
        on_hold_count += 1
        if on_hold_count == 1:
            now = ...
            print("... Download paused due to resign_error.")
        time.sleep(1)
if on_hold_count:
    print("... Download will be continued after resign_error.")
```

A transient failure streak is abstracted by its length `fails`: the first
`fails` calls to `STACCube._sign_metadata` raise and the next one
succeeds. The bare `except:` catches every exception, so no signing
failure propagates out of the loop; the loop only exits through
`signed = True`. -/

/-- Trace of one execution of the signing block for a batch. -/
structure SignTrace where
  attempts : Nat
  sleepSeconds : Nat
  pausedLines : Nat
  resumedLines : Nat
  raised : Bool
  deriving DecidableEq

/-- The `while not signed` loop: given `fails` remaining failures and the
current `on_hold_count`, return
(sign attempts, seconds slept, "paused" lines printed, final `on_hold_count`).
Each failure sleeps `time.sleep(1)` — one second — and prints the "paused"
line exactly when `on_hold_count == 1` after the increment. -/
def signWhileLoop : Nat → Nat → Nat × Nat × Nat × Nat
  | 0, onHold => (1, 0, 0, onHold)
  | k + 1, onHold =>
    let pausedLine := if onHold + 1 = 1 then 1 else 0
    let rest := signWhileLoop k (onHold + 1)
    (rest.1 + 1, rest.2.1 + 1, rest.2.2.1 + pausedLine, rest.2.2.2)

/-- The whole signing block for one batch: run the while loop starting
from `on_hold_count = 0`, then print the "resumed" line once iff
`on_hold_count` is non-zero. The bare `except:` means no failure is ever
raised to the caller. -/
def signBatch (fails : Nat) : SignTrace :=
  let r := signWhileLoop fails 0
  { attempts := r.1
    sleepSeconds := r.2.1
    pausedLines := r.2.2.1
    resumedLines := if r.2.2.2 ≠ 0 then 1 else 0
    raised := false }

theorem signWhileLoop_spec (k c : Nat) :
    signWhileLoop k c =
      (k + 1, k, if c = 0 ∧ 1 ≤ k then 1 else 0, c + k) := by
  induction k generalizing c with
  | zero => simp [signWhileLoop]
  | succ k ih =>
    simp only [signWhileLoop, ih (c + 1)]
    rcases Nat.eq_zero_or_pos c with rfl | hc
    · simp [Prod.ext_iff]
      omega
    · have hc0 : ¬ c = 0 := by omega
      simp [hc0, Prod.ext_iff]
      omega

/-- C7: for every batch and every finite transient-failure streak, the run
does not fail: signing is retried with a fixed one-second backoff until it
succeeds (`fails + 1` attempts, `fails` seconds slept), exactly one
"paused" line is printed on the first failure of a streak, exactly one
"resumed" line is printed once signing succeeds after a streak (and none
when there was no failure), and no signing failure is raised to the
caller. -/
theorem claim_C7_sign_retry (fails : Nat) :
    (signBatch fails).attempts = fails + 1 ∧
    (signBatch fails).sleepSeconds = fails ∧
    (signBatch fails).pausedLines = (if 1 ≤ fails then 1 else 0) ∧
    (signBatch fails).resumedLines = (if 1 ≤ fails then 1 else 0) ∧
    (signBatch fails).raised = false := by
  unfold signBatch
  rw [signWhileLoop_spec]
  rcases Nat.eq_zero_or_pos fails with rfl | hf
  · simp
  · have h1 : 1 ≤ fails := hf
    have h0 : ¬ fails = 0 := by omega
    simp [h1, h0]

/-! ## Claim C5: the preview size estimator
(`_STACDownloader._async_download`, lines 384–397, and `_sizeof_fmt`,
lines 599–611)

```
n_items = len(os.listdir(temp_dir))
mean_size = _STACDownloader._get_dir_size(temp_dir) / n_items * len(self.item_coll)
sub_dirs = [os.path.join(temp_dir, x.id) for x in pre_coll]
std_size = np.std([_STACDownloader._get_dir_size(x) for x in sub_dirs])
ci_size = 1.96 * std_size / ((n_items - 1) ** 0.5) * len(self.item_coll)
```

The state of `temp_dir` at this point: the `item-collection.json` artifact
written by `stac_asset.download_item_collection` (one directory entry, a
file with some size), plus one non-empty directory per surviving preview
item (`_remove_empty_items` has deleted the empty ones). Sizes are modelled
in `ℚ`; square roots are avoided by comparing the squares of the
confidence half-widths, which is equivalent for these non-negative
quantities. -/

/-- State of the preview scratch directory after download and cleanup:
the size of the `item-collection.json` artifact file at its root, and the
per-item directories (directory name, sizes of the files inside). -/
structure TempDir where
  artifactSize : ℚ
  itemDirs : List (String × List ℚ)

/-- `_STACDownloader._get_dir_size(temp_dir)`: total size of all files
under the directory, the artifact file included. -/
def get_dir_size (t : TempDir) : ℚ :=
  t.artifactSize + (t.itemDirs.map (fun d => d.2.sum)).sum

/-- `len(os.listdir(temp_dir))`: the item directories plus the
`item-collection.json` file itself. -/
def n_items (t : TempDir) : Nat :=
  t.itemDirs.length + 1

/-- `mean_size = _get_dir_size(temp_dir) / n_items * len(self.item_coll)`. -/
def mean_size (t : TempDir) (NTotal : ℚ) : ℚ :=
  get_dir_size t / (n_items t : ℚ) * NTotal

/-- `_get_dir_size(os.path.join(temp_dir, x.id))` for a sampled item `x`:
the size of its directory, or 0 when the cleanup removed it (walking a
non-existing path visits nothing). -/
def sampledDirSize (t : TempDir) (id : String) : ℚ :=
  ((t.itemDirs.lookup id).map List.sum).getD 0

/-- `np.std(xs) ** 2`: the population variance (`ddof = 0`). -/
def np_var (xs : List ℚ) : ℚ :=
  (xs.map (fun x => (x - xs.sum / (xs.length : ℚ)) ^ 2)).sum / (xs.length : ℚ)

/-- The square of
`ci_size = 1.96 * std_size / ((n_items - 1) ** 0.5) * len(self.item_coll)`. -/
def ci_size_sq (t : TempDir) (sampleIds : List String) (NTotal : ℚ) : ℚ :=
  (49 / 25) ^ 2 * np_var (sampleIds.map (sampledDirSize t)) /
    ((n_items t : ℚ) - 1) * NTotal ^ 2

/-- Definition following the words of the spec (§4.4), for comparison with the
code: `mean = sum(sizes)/n * N_total/n` where `sizes` are the measured
per-item directory sizes and `n` their number. -/
def specMeanFormula (sizes : List ℚ) (NTotal : ℚ) : ℚ :=
  sizes.sum / (sizes.length : ℚ) * (NTotal / (sizes.length : ℚ))

/-- Definition following the words of the spec (§4.4), squared:
`ci95 = 1.96 * stddev(sizes) / sqrt(n-1) * N_total/n`. -/
def specCi95SqFormula (sizes : List ℚ) (NTotal : ℚ) : ℚ :=
  (49 / 25) ^ 2 * np_var sizes / ((sizes.length : ℚ) - 1) *
    (NTotal / (sizes.length : ℚ)) ^ 2

/-- `_STACDownloader._sizeof_fmt`: divide by 1024 while the magnitude is
at least 1024 and at most 7 divisions have happened, returning the printed
mantissa and the index of the chosen unit (0 = B, 1 = KiB, …, 8 = YiB). -/
def sizeof_fmtAux (num : ℚ) (i : Nat) : ℚ × Nat :=
  if 8 ≤ i then (num, 8)
  else if |num| < 1024 then (num, i)
  else sizeof_fmtAux (num / 1024) (i + 1)
  termination_by 8 - i

def sizeof_fmt (num : ℚ) : ℚ × Nat :=
  sizeof_fmtAux num 0

theorem sizeof_fmtAux_spec (num : ℚ) (i : Nat) (hi : i ≤ 8) :
    (sizeof_fmtAux num i).1 * 1024 ^ ((sizeof_fmtAux num i).2 - i) = num ∧
    i ≤ (sizeof_fmtAux num i).2 ∧
    (sizeof_fmtAux num i).2 ≤ 8 ∧
    ((sizeof_fmtAux num i).2 < 8 → |(sizeof_fmtAux num i).1| < 1024) := by
  generalize hfuel : 8 - i = fuel
  induction fuel generalizing num i with
  | zero =>
    have h8 : 8 ≤ i := by omega
    rw [sizeof_fmtAux]
    simp only [h8, if_true, reduceIte]
    exact ⟨by simp [Nat.sub_eq_zero_of_le h8], by omega, le_refl 8,
      fun h => absurd h (by omega)⟩
  | succ fuel ih =>
    have h8 : ¬ 8 ≤ i := by omega
    rw [sizeof_fmtAux]
    simp only [h8, if_false]
    by_cases hsmall : |num| < 1024
    · rw [if_pos hsmall]
      exact ⟨by simp, le_refl i, hi, fun _ => hsmall⟩
    · simp only [hsmall, if_false]
      obtain ⟨ih1, ihlo, ih2, ih3⟩ := ih (num / 1024) (i + 1) (by omega) (by omega)
      refine ⟨?_, by omega, ih2, ih3⟩
      have hexp : (sizeof_fmtAux (num / 1024) (i + 1)).2 - i =
          ((sizeof_fmtAux (num / 1024) (i + 1)).2 - (i + 1)) + 1 := by omega
      rw [hexp, pow_succ, ← mul_assoc, ih1]
      exact div_mul_cancel₀ num (by norm_num)

theorem map_snd_fun_zip {α β γ : Type} (f : β → γ) :
    ∀ (ids : List α) (vs : List β), ids.length = vs.length →
      (ids.zip vs).map (fun d => f d.2) = vs.map f
  | [], [], _ => rfl
  | [], _ :: _, h => by simp at h
  | _ :: _, [], h => by simp at h
  | a :: ids, v :: vs, h => by
      simp only [List.zip_cons_cons, List.map_cons]
      rw [map_snd_fun_zip f ids vs (by simpa using h)]

theorem map_lookup_zip {α β γ : Type} [BEq α] [LawfulBEq α] (f : β → γ) (d : γ) :
    ∀ (ids : List α) (vs : List β), ids.Nodup → ids.length = vs.length →
      ids.map (fun a => (((ids.zip vs).lookup a).map f).getD d) = vs.map f
  | [], [], _, _ => rfl
  | [], _ :: _, _, h => by simp at h
  | _ :: _, [], _, h => by simp at h
  | a :: ids, v :: vs, hnd, h => by
      simp only [List.zip_cons_cons, List.map_cons]
      have htail : ids.map
            (fun b => ((((a, v) :: ids.zip vs).lookup b).map f).getD d) =
          ids.map (fun b => (((ids.zip vs).lookup b).map f).getD d) := by
        apply List.map_congr_left
        intro b hb
        have hba : (b == a) = false := by
          have hne : b ≠ a := by
            intro he
            exact (List.nodup_cons.mp hnd).1 (he ▸ hb)
          simpa using hne
        simp [List.lookup, hba]
      congr 1
      · simp [List.lookup]
      · rw [htail,
          map_lookup_zip f d ids vs (List.nodup_cons.mp hnd).2 (by simpa using h)]

/-- C5 counterexample: two sampled items `a` and `b` whose directories
measure 2 and 4 bytes, an `item-collection.json` of size 0, and a total
population of 10 items. The code reports `mean = 6/3*10 = 20` (it divides
by `len(os.listdir(temp_dir)) = 3`, which counts the artifact file, and
multiplies by `N_total`, not `N_total/n`), while the formula of the spec
`sum(sizes)/n * N_total/n` gives `6/2 * 10/2 = 15`; the squared confidence
half-widths differ likewise ((1.96)² · var/2 · 10² against
(1.96)² · var/1 · (10/2)²), so neither reported quantity matches the
closed forms given in the spec. -/
theorem claim_C5_counterexample :
    (mean_size ⟨0, [("a", [2]), ("b", [4])]⟩ 10 ≠
      specMeanFormula
        (["a", "b"].map (sampledDirSize ⟨0, [("a", [2]), ("b", [4])]⟩)) 10) ∧
    (ci_size_sq ⟨0, [("a", [2]), ("b", [4])]⟩ ["a", "b"] 10 ≠
      specCi95SqFormula
        (["a", "b"].map (sampledDirSize ⟨0, [("a", [2]), ("b", [4])]⟩)) 10) := by
  have hs : ["a", "b"].map (sampledDirSize ⟨0, [("a", [2]), ("b", [4])]⟩) =
      [2, 4] := by
    simp +decide [sampledDirSize, List.lookup]
  rw [hs]
  constructor
  · norm_num [mean_size, get_dir_size, n_items, specMeanFormula]
  · norm_num [ci_size_sq, n_items, hs, specCi95SqFormula, np_var,
      sampledDirSize, List.lookup]

/-- C5 (amended): for a sample of `n` downloaded preview items with
measured directory sizes `sizes` (one non-empty directory per sampled id,
ids distinct) and an artifact file of size `j`, the estimator reports
`mean = (sum(sizes) + j) / (n + 1) * N_total` — the divisor is the
directory-entry count, which includes the `item-collection.json` file, and
the population factor is `N_total`, not `N_total/n` — and a squared 95%
half-width of `ci95² = 1.96² * popvar(sizes) / n * N_total²` (the
`np.std` population standard deviation, divided by `sqrt(n_items - 1) =
sqrt(n)`), both rendered in base-1024 binary units: the mantissa printed
by `_sizeof_fmt` times `1024^unit` recovers the value, over at most the 8
unit steps B … YiB. -/
theorem claim_C5_estimator_closed_form (ids : List String) (sizes : List ℚ)
    (j NTotal : ℚ) (hlen : ids.length = sizes.length) (hnd : ids.Nodup) :
    mean_size ⟨j, ids.zip (sizes.map (fun s => [s]))⟩ NTotal =
      (j + sizes.sum) / ((sizes.length : ℚ) + 1) * NTotal ∧
    ci_size_sq ⟨j, ids.zip (sizes.map (fun s => [s]))⟩ ids NTotal =
      (49 / 25) ^ 2 * np_var sizes / (sizes.length : ℚ) * NTotal ^ 2 ∧
    (∀ num : ℚ, (sizeof_fmt num).1 * 1024 ^ (sizeof_fmt num).2 = num ∧
      (sizeof_fmt num).2 ≤ 8) := by
  have hlen2 : ids.length = (sizes.map (fun s => [s])).length := by
    simpa using hlen
  have hzlen : (ids.zip (sizes.map (fun s => [s]))).length = sizes.length := by
    simp [List.length_zip, hlen]
  have hsingle : (sizes.map (fun s => [s])).map List.sum = sizes := by
    rw [List.map_map]
    have hid : (List.sum ∘ fun s : ℚ => [s]) = id := by
      funext s
      simp
    rw [hid, List.map_id]
  have hsum : ((ids.zip (sizes.map (fun s => [s]))).map (fun d => d.2.sum)).sum =
      sizes.sum := by
    rw [map_snd_fun_zip List.sum ids _ hlen2, hsingle]
  have hsample : ids.map (sampledDirSize ⟨j, ids.zip (sizes.map (fun s => [s]))⟩) =
      sizes := by
    have hlz := map_lookup_zip (List.sum : List ℚ → ℚ) 0 ids (sizes.map (fun s => [s]))
      hnd hlen2
    have hfun : sampledDirSize ⟨j, ids.zip (sizes.map (fun s => [s]))⟩ =
        fun a => (((ids.zip (sizes.map (fun s => [s]))).lookup a).map List.sum).getD 0 :=
      rfl
    rw [hfun, hlz, hsingle]
  refine ⟨?_, ?_, ?_⟩
  · rw [mean_size, get_dir_size, hsum]
    have : (n_items ⟨j, ids.zip (sizes.map (fun s => [s]))⟩ : ℚ) =
        (sizes.length : ℚ) + 1 := by
      rw [n_items, hzlen]
      push_cast
      ring
    rw [this]
  · rw [ci_size_sq, hsample]
    have : (n_items ⟨j, ids.zip (sizes.map (fun s => [s]))⟩ : ℚ) - 1 =
        (sizes.length : ℚ) := by
      rw [n_items, hzlen]
      push_cast
      ring
    rw [this]
  · intro num
    obtain ⟨h1, _, h3, _⟩ := sizeof_fmtAux_spec num 0 (by omega)
    exact ⟨by simpa [sizeof_fmt] using h1, by simpa [sizeof_fmt] using h3⟩

/-- C5 witness: the amended closed forms evaluated on the concrete sample
of the counterexample (ids `a`, `b`; sizes 2 and 4; artifact size 0;
population 10). -/
theorem claim_C5_estimator_closed_form_witness :
    mean_size ⟨0, ["a", "b"].zip ([2, 4].map (fun s => [s]))⟩ 10 =
      (0 + ([2, 4] : List ℚ).sum) / ((([2, 4] : List ℚ).length : ℚ) + 1) * 10 :=
  (claim_C5_estimator_closed_form ["a", "b"] [2, 4] 0 10 (by decide)
    (by decide)).1

/-! ## Claims C6 and C10: the empty-item cleanup pass
(`_STACDownloader._remove_empty_items`, lines 538–559, and
`_find_empty_subdirs`, lines 561–578)

```
empty_dirs = _STACDownloader._find_empty_subdirs(out_path)
for dir in empty_dirs:
    shutil.rmtree(dir)
coll_path = os.path.join(out_path, "item-collection.json")
in_coll = pystac.ItemCollection.from_file(coll_path)
all_items = [x.id for x in in_coll.items]
rm_items = [os.path.split(x)[-1] for x in empty_dirs]
for id in rm_items:
    all_items.remove(id)
keep_items = [x for x in in_coll.items if x.id in all_items]
out_coll = pystac.ItemCollection(items=keep_items)
out_coll.save_object(coll_path)
```

The output directory is modelled in the layout the downloader produces: an
`item-collection.json` at the root (its items represented by their ids)
and one flat subdirectory per item holding only files. On such a tree
`os.walk` visits the root (never empty: the artifact file is there) and
classifies a subdirectory as empty exactly when `os.listdir` of it is
empty, so `_find_empty_subdirs` returns exactly the childless item
directories. `list.remove` raises `ValueError` when the element is absent;
that makes the update of `all_items` fallible, and the error strikes after
`shutil.rmtree` already ran but before `save_object` rewrites the
artifact. -/

/-- Output directory state: the ids listed in `item-collection.json` and
the item subdirectories (directory name, names of the files inside). -/
structure OutTree where
  collIds : List String
  itemDirs : List (String × List String)

/-- `_STACDownloader._find_empty_subdirs` on the flat layout: the names of
the item directories containing no entry. -/
def find_empty_subdirs (dirs : List (String × List String)) : List String :=
  (dirs.filter (fun d => d.2.isEmpty)).map Prod.fst

/-- The Python method `list.remove`: delete the first occurrence, or fail with
`ValueError` when the element is absent. -/
def list_remove (xs : List String) (a : String) : Option (List String) :=
  match xs with
  | [] => none
  | x :: rest => if x = a then some rest else (list_remove rest a).map (x :: ·)

/-- The loop `for id in rm_items: all_items.remove(id)`: sequential
removal, failing as soon as one removal fails. -/
def remove_ids (xs : List String) : List String → Option (List String)
  | [] => some xs
  | a :: rest =>
    match list_remove xs a with
    | none => none
    | some xs2 => remove_ids xs2 rest

/-- `_STACDownloader._remove_empty_items`: delete the empty item
directories from disk, then update the artifact id list by sequential
removal and rewrite the artifact with the surviving items. Returns the
resulting state and whether a `ValueError` was raised; on the error path
the directories are already deleted but the artifact file is left
unrewritten. -/
def remove_empty_items (s : OutTree) : OutTree × Bool :=
  let emptyDirs := find_empty_subdirs s.itemDirs
  let dirsAfter := s.itemDirs.filter (fun d => !d.2.isEmpty)
  match remove_ids s.collIds emptyDirs with
  | none => (⟨s.collIds, dirsAfter⟩, true)
  | some remaining =>
    (⟨s.collIds.filter (fun id => remaining.contains id), dirsAfter⟩, false)

theorem list_remove_eq_none (xs : List String) (a : String) (ha : a ∉ xs) :
    list_remove xs a = none := by
  induction xs with
  | nil => rfl
  | cons x rest ih =>
    have hxa : ¬ x = a := by
      intro he
      exact ha (he ▸ List.mem_cons_self x rest)
    rw [list_remove, if_neg hxa, ih (fun hm => ha (List.mem_cons_of_mem x hm))]
    rfl

theorem list_remove_eq_erase (xs : List String) (a : String) (ha : a ∈ xs) :
    list_remove xs a = some (xs.erase a) := by
  induction xs with
  | nil => exact absurd ha (List.not_mem_nil a)
  | cons x rest ih =>
    by_cases hxa : x = a
    · subst hxa
      rw [list_remove, if_pos rfl, List.erase_cons_head]
    · have har : a ∈ rest := by
        rcases List.mem_cons.mp ha with he | hm
        · exact absurd he.symm hxa
        · exact hm
      rw [list_remove, if_neg hxa, ih har, List.erase_cons_tail]
      · rfl
      · simpa using fun he => hxa he

theorem remove_ids_eq_none (as xs : List String)
    (hbad : ∃ a ∈ as, a ∉ xs) :
    remove_ids xs as = none := by
  induction as generalizing xs with
  | nil => simp at hbad
  | cons a rest ih =>
    obtain ⟨b, hb, hbx⟩ := hbad
    by_cases hax : a ∈ xs
    · rw [remove_ids, list_remove_eq_erase xs a hax]
      have hba : b ≠ a := by
        intro he
        exact hbx (he ▸ hax)
      have hbrest : b ∈ rest := by
        rcases List.mem_cons.mp hb with he | hm
        · exact absurd he hba
        · exact hm
      exact ih (xs.erase a) ⟨b, hbrest, fun hm => hbx (List.erase_subset a xs hm)⟩
    · rw [remove_ids, list_remove_eq_none xs a hax]

theorem remove_ids_spec (as xs : List String) (hnx : xs.Nodup)
    (hna : as.Nodup) (hsub : ∀ a ∈ as, a ∈ xs) :
    ∃ r, remove_ids xs as = some r ∧ (∀ x, x ∈ r ↔ x ∈ xs ∧ x ∉ as) := by
  induction as generalizing xs with
  | nil =>
    exact ⟨xs, rfl, fun x => by simp⟩
  | cons a rest ih =>
    have hax : a ∈ xs := hsub a (List.mem_cons_self a rest)
    obtain ⟨hna1, hna2⟩ := List.nodup_cons.mp hna
    have hsub2 : ∀ b ∈ rest, b ∈ xs.erase a := by
      intro b hb
      have hba : b ≠ a := fun he => hna1 (he ▸ hb)
      exact (List.Nodup.mem_erase_iff hnx).mpr
        ⟨hba, hsub b (List.mem_cons_of_mem a hb)⟩
    obtain ⟨r, hr, hmem⟩ := ih (xs.erase a) (hnx.erase a) hna2 hsub2
    refine ⟨r, ?_, ?_⟩
    · rw [remove_ids, list_remove_eq_erase xs a hax]
      exact hr
    · intro x
      rw [hmem x, List.Nodup.mem_erase_iff hnx]
      constructor
      · rintro ⟨⟨hxa, hxxs⟩, hxrest⟩
        exact ⟨hxxs, by simp [hxa, hxrest]⟩
      · rintro ⟨hxxs, hxcons⟩
        simp only [List.mem_cons, not_or] at hxcons
        exact ⟨⟨hxcons.1, hxxs⟩, hxcons.2⟩

theorem mem_find_empty_subdirs (dirs : List (String × List String))
    (id : String) :
    id ∈ find_empty_subdirs dirs ↔ ∃ fs, (id, fs) ∈ dirs ∧ fs = [] := by
  simp only [find_empty_subdirs, List.mem_map, List.mem_filter]
  constructor
  · rintro ⟨⟨n, fs⟩, ⟨hmem, hemp⟩, hfst⟩
    simp only at hfst
    subst hfst
    exact ⟨fs, hmem, List.isEmpty_iff.mp hemp⟩
  · rintro ⟨fs, hmem, rfl⟩
    exact ⟨(id, []), ⟨hmem, rfl⟩, rfl⟩

theorem nodup_fst_unique {β : Type} (l : List (String × β))
    (hnd : (l.map Prod.fst).Nodup) :
    ∀ (a : String) (b b2 : β), (a, b) ∈ l → (a, b2) ∈ l → b = b2 := by
  induction l with
  | nil => intro a b b2 h1; simp at h1
  | cons d rest ih =>
    simp only [List.map_cons, List.nodup_cons] at hnd
    intro a b b2 h1 h2
    rcases List.mem_cons.mp h1 with he1 | hm1 <;>
      rcases List.mem_cons.mp h2 with he2 | hm2
    · have hbb : (a, b) = (a, b2) := he1.trans he2.symm
      exact (Prod.ext_iff.mp hbb).2
    · exfalso
      have hmem : a ∈ rest.map Prod.fst := List.mem_map.mpr ⟨(a, b2), hm2, rfl⟩
      have hd1 : d.1 = a := by rw [← he1]
      exact hnd.1 (hd1 ▸ hmem)
    · exfalso
      have hmem : a ∈ rest.map Prod.fst := List.mem_map.mpr ⟨(a, b), hm1, rfl⟩
      have hd1 : d.1 = a := by rw [← he2]
      exact hnd.1 (hd1 ▸ hmem)
    · exact ih hnd.2 a b b2 hm1 hm2

/-- C6: after the cleanup pass, provided the output tree is the one the
downloader produces (artifact ids distinct, item-directory names distinct,
every item directory named after a listed item, every listed item owning a
directory — the situation in which the pass does not raise, cf. C10): no
`ValueError` is raised, every surviving directory is non-empty, the
rewritten artifact lists exactly the items whose asset directory is
non-empty, a directory survives exactly when it was non-empty, and for
every item id: its directory contains zero files if and only if the item
is absent from the artifact and its directory no longer exists on disk. -/
theorem claim_C6_cleanup_invariant (s : OutTree)
    (hndc : s.collIds.Nodup)
    (hndd : (s.itemDirs.map Prod.fst).Nodup)
    (hdir_in_coll : ∀ d ∈ s.itemDirs, d.1 ∈ s.collIds)
    (hcoll_has_dir : ∀ id ∈ s.collIds, ∃ d ∈ s.itemDirs, d.1 = id) :
    (remove_empty_items s).2 = false ∧
    (∀ d ∈ (remove_empty_items s).1.itemDirs, d.2 ≠ []) ∧
    (∀ id fs, (id, fs) ∈ (remove_empty_items s).1.itemDirs ↔
      ((id, fs) ∈ s.itemDirs ∧ fs ≠ [])) ∧
    (∀ id, id ∈ (remove_empty_items s).1.collIds ↔
      ∃ fs, (id, fs) ∈ (remove_empty_items s).1.itemDirs ∧ fs ≠ []) ∧
    (∀ id,
      (∀ fs, (id, fs) ∈ (remove_empty_items s).1.itemDirs → fs = []) ↔
      (id ∉ (remove_empty_items s).1.collIds ∧
        ∀ fs, (id, fs) ∉ (remove_empty_items s).1.itemDirs)) := by
  have hsubE : ∀ a ∈ find_empty_subdirs s.itemDirs, a ∈ s.collIds := by
    intro a ha
    obtain ⟨fs, hmem, _⟩ := (mem_find_empty_subdirs s.itemDirs a).mp ha
    exact hdir_in_coll (a, fs) hmem
  have hndE : (find_empty_subdirs s.itemDirs).Nodup := by
    have hsubl : (find_empty_subdirs s.itemDirs).Sublist
        (s.itemDirs.map Prod.fst) :=
      (List.filter_sublist s.itemDirs).map Prod.fst
    exact hndd.sublist hsubl
  obtain ⟨r, hr, hrmem⟩ :=
    remove_ids_spec (find_empty_subdirs s.itemDirs) s.collIds hndc hndE hsubE
  have hres : remove_empty_items s =
      (⟨s.collIds.filter (fun id => r.contains id),
        s.itemDirs.filter (fun d => !d.2.isEmpty)⟩, false) := by
    rw [remove_empty_items]
    simp only [hr]
  rw [hres]
  simp only
  have hdirs : ∀ id fs,
      (id, fs) ∈ s.itemDirs.filter (fun d => !d.2.isEmpty) ↔
        ((id, fs) ∈ s.itemDirs ∧ fs ≠ []) := by
    intro id fs
    simp [List.mem_filter]
  have hids : ∀ id,
      id ∈ s.collIds.filter (fun id => r.contains id) ↔
        (id ∈ s.collIds ∧ id ∉ find_empty_subdirs s.itemDirs) := by
    intro id
    have h1 : id ∈ s.collIds.filter (fun id => r.contains id) ↔
        (id ∈ s.collIds ∧ id ∈ r) := by
      simp [List.mem_filter]
    rw [h1, hrmem id]
    constructor
    · rintro ⟨hc, _, he⟩
      exact ⟨hc, he⟩
    · rintro ⟨hc, he⟩
      exact ⟨hc, hc, he⟩
  have huniq : ∀ (id : String) (fs fs2 : List String),
      (id, fs) ∈ s.itemDirs → (id, fs2) ∈ s.itemDirs → fs = fs2 :=
    nodup_fst_unique s.itemDirs hndd
  have hc4 : ∀ id,
      id ∈ s.collIds.filter (fun id => r.contains id) ↔
        ∃ fs, (id, fs) ∈ s.itemDirs.filter (fun d => !d.2.isEmpty) ∧
          fs ≠ [] := by
    intro id
    rw [hids id]
    constructor
    · rintro ⟨hc, he⟩
      obtain ⟨⟨n, fs0⟩, hd, hfst⟩ := hcoll_has_dir id hc
      simp only at hfst
      rw [hfst] at hd
      have hfs0 : fs0 ≠ [] := by
        intro hnil
        exact he ((mem_find_empty_subdirs s.itemDirs id).mpr ⟨fs0, hd, hnil⟩)
      exact ⟨fs0, (hdirs id fs0).mpr ⟨hd, hfs0⟩, hfs0⟩
    · rintro ⟨fs, hmemf, hne⟩
      obtain ⟨hd, _⟩ := (hdirs id fs).mp hmemf
      refine ⟨hdir_in_coll (id, fs) hd, ?_⟩
      intro hinE
      obtain ⟨fs2, hd2, hnil2⟩ := (mem_find_empty_subdirs s.itemDirs id).mp hinE
      exact hne ((huniq id fs fs2 hd hd2).trans hnil2)
  refine ⟨trivial, ?_, hdirs, hc4, ?_⟩
  · intro d hd
    obtain ⟨_, hne⟩ := List.mem_filter.mp hd
    simpa using hne
  · intro id
    constructor
    · intro hall
      have hnodir : ∀ fs, (id, fs) ∉ s.itemDirs.filter (fun d => !d.2.isEmpty) := by
        intro fs hmem
        obtain ⟨_, hne⟩ := (hdirs id fs).mp hmem
        exact hne (hall fs hmem)
      refine ⟨?_, hnodir⟩
      intro hin
      obtain ⟨fs, hmemf, hne⟩ := (hc4 id).mp hin
      exact hne (hall fs hmemf)
    · rintro ⟨_, hnodir⟩ fs hmem
      exact absurd hmem (hnodir fs)

/-- C10: the cleanup assumes every empty subdirectory is named after a
listed item id; when the name of some empty directory matches no listed id, the
pass raises (`list.remove` of a missing id) after the empty directories
were already deleted from disk, and the artifact file is left unrewritten
— the operation is not atomic on this error path. -/
theorem claim_C10_cleanup_not_atomic (s : OutTree)
    (hbad : ∃ d ∈ s.itemDirs, d.2 = [] ∧ d.1 ∉ s.collIds) :
    (remove_empty_items s).2 = true ∧
    (remove_empty_items s).1.collIds = s.collIds ∧
    (remove_empty_items s).1.itemDirs =
      s.itemDirs.filter (fun d => !d.2.isEmpty) := by
  obtain ⟨⟨n, fs⟩, hmem, hemp, hnc⟩ := hbad
  have hnone : remove_ids s.collIds (find_empty_subdirs s.itemDirs) = none := by
    apply remove_ids_eq_none
    exact ⟨n, (mem_find_empty_subdirs s.itemDirs n).mpr ⟨fs, hmem, hemp⟩, hnc⟩
  rw [remove_empty_items]
  simp only [hnone]
  exact ⟨trivial, trivial, trivial⟩

/-- C10 witness: a concrete output tree with an empty directory `ghost`
that is not a listed item: the pass errors, the artifact is unchanged and
the empty directory is gone. -/
theorem claim_C10_cleanup_not_atomic_witness :
    (remove_empty_items ⟨["x"], [("x", ["f"]), ("ghost", [])]⟩).2 = true :=
  (claim_C10_cleanup_not_atomic ⟨["x"], [("x", ["f"]), ("ghost", [])]⟩
    (by decide)).1

/-- C6 witness: the cleanup invariant evaluated on a concrete tree with
one surviving item `x` and one empty item directory `y`. -/
theorem claim_C6_cleanup_invariant_witness :
    (remove_empty_items ⟨["x", "y"], [("x", ["f"]), ("y", [])]⟩).2 = false :=
  (claim_C6_cleanup_invariant ⟨["x", "y"], [("x", ["f"]), ("y", [])]⟩
    (by decide) (by decide) (by decide) (by decide)).1

/-! ## Claim C8: collection extent assembly
(`Downloader._create_full_extent`, lines 115–132;
`Downloader._get_spatial_extent`, lines 183–199)

```
polygons = []; datetimes = []
for index, stac_item in enumerate(stac_item_list):
    polygons.append(shape(stac_item.geometry))
    datetimes.append(stac_item.get_datetime())
spatial_extent = self._get_spatial_extent(polygons)
temporal_extent = self._get_temporal_extent(min(datetimes), max(datetimes))
...
polygons = [p.buffer(0) for p in polygons]
unioned_geometry = unary_union(polygons)
return pystac.SpatialExtent(bboxes=[unioned_geometry.bounds])
```

The geometric collaborators (`shapely`) are external to the repository and
are modelled at the level relevant to bounding boxes: a geometry is its
list of vertices (integer coordinates suffice for the claim); the
zero-width buffer repair closes self-intersections without moving
vertices, so on this representation it is the identity; the union of
geometries covers exactly the points of the members, so its bounding box is
determined by the multiset of all vertices, modelled as concatenation;
`bounds` is the componentwise min/max over vertices. Timestamps are
modelled as integers. -/

abbrev GeomPoint := ℤ × ℤ

abbrev Geometry := List GeomPoint

/-- One STAC item as seen by `_create_full_extent`: its geometry and its
`get_datetime()` value. -/
structure GeoItem where
  geometry : Geometry
  datetime : ℤ

/-- Modelled from the spec: `shapely.geometry.shape` converts the GeoJSON
geometry to a shapely object; on the vertex representation it is the
identity. -/
def shape (g : Geometry) : Geometry := g

/-- Modelled from the spec: the zero-width buffer `p.buffer(0)` repairs
minor self-intersections; it does not move vertices, so on the vertex
representation it is the identity. -/
def bufferZero (g : Geometry) : Geometry := g

/-- Modelled from the spec: `shapely.ops.unary_union` covers exactly the
points of its members; for bounding-box purposes it is the concatenation
of the vertex lists. -/
def unary_union (gs : List Geometry) : Geometry := gs.flatten

/-- Python `min` over a non-empty list (0 as the junk value on `[]`). -/
def listMin (l : List ℤ) : ℤ :=
  match l with
  | [] => 0
  | x :: rest => rest.foldl min x

/-- Python `max` over a non-empty list (0 as the junk value on `[]`). -/
def listMax (l : List ℤ) : ℤ :=
  match l with
  | [] => 0
  | x :: rest => rest.foldl max x

/-- `unioned_geometry.bounds`: `(minx, miny, maxx, maxy)` over the
vertices. -/
def bounds (g : Geometry) : ℤ × ℤ × ℤ × ℤ :=
  (listMin (g.map Prod.fst), listMin (g.map Prod.snd),
    listMax (g.map Prod.fst), listMax (g.map Prod.snd))

/-- `Downloader._get_spatial_extent`: repair each polygon with a
zero-width buffer, union, and reduce to the bounding box. -/
def get_spatial_extent (polygons : List Geometry) : ℤ × ℤ × ℤ × ℤ :=
  bounds (unary_union (polygons.map bufferZero))

/-- `Downloader._get_temporal_extent`: the interval `[startime, endtime]`. -/
def get_temporal_extent (startime endtime : ℤ) : ℤ × ℤ :=
  (startime, endtime)

/-- `Downloader._create_full_extent`: collect member geometries and
datetimes, then build the spatial extent from the union of the repaired
geometries and the temporal extent from `min`/`max` of the datetimes. -/
def create_full_extent (stac_item_list : List GeoItem) :
    (ℤ × ℤ × ℤ × ℤ) × (ℤ × ℤ) :=
  let polygons := stac_item_list.map (fun it => shape it.geometry)
  let datetimes := stac_item_list.map (fun it => it.datetime)
  (get_spatial_extent polygons,
    get_temporal_extent (listMin datetimes) (listMax datetimes))

/-- C8: for every non-empty member list, the collection extent computed by
`_create_full_extent` is the bounding box of the union of the member
zero-buffer-repaired geometries paired with the interval
`[min(datetime), max(datetime)]`; in particular two items with disjoint
unit-square geometries at (0,0) and (1,1) yield the bounding box
`[0, 0, 2, 2]` and the temporal extent `[min, max]` of the two input
datetimes. -/
theorem claim_C8_extent :
    (∀ (items : List GeoItem), items ≠ [] →
      create_full_extent items =
        (bounds (unary_union
            ((items.map (fun it => shape it.geometry)).map bufferZero)),
          (listMin (items.map (fun it => it.datetime)),
            listMax (items.map (fun it => it.datetime))))) ∧
    (∀ t1 t2 : ℤ,
      create_full_extent
          [⟨[(0, 0), (1, 0), (1, 1), (0, 1)], t1⟩,
            ⟨[(1, 1), (2, 1), (2, 2), (1, 2)], t2⟩] =
        ((0, 0, 2, 2), (min t1 t2, max t1 t2))) := by
  constructor
  · intro items _
    rfl
  · intro t1 t2
    have hsp : get_spatial_extent
        [[(0, 0), (1, 0), (1, 1), (0, 1)], [(1, 1), (2, 1), (2, 2), (1, 2)]] =
        (0, 0, 2, 2) := by
      decide
    have htl : listMin [t1, t2] = min t1 t2 := by
      simp [listMin]
    have hth : listMax [t1, t2] = max t1 t2 := by
      simp [listMax]
    calc create_full_extent
          [⟨[(0, 0), (1, 0), (1, 1), (0, 1)], t1⟩,
            ⟨[(1, 1), (2, 1), (2, 2), (1, 2)], t2⟩]
        = (get_spatial_extent
            [[(0, 0), (1, 0), (1, 1), (0, 1)], [(1, 1), (2, 1), (2, 2), (1, 2)]],
            (listMin [t1, t2], listMax [t1, t2])) := rfl
      _ = ((0, 0, 2, 2), (min t1 t2, max t1 t2)) := by
          rw [hsp, htl, hth]

/-- C8 witness: the general refinement applied to a one-item collection. -/
theorem claim_C8_extent_witness :
    create_full_extent [⟨[(0, 0)], 7⟩] =
      (bounds (unary_union
          (([(⟨[(0, 0)], 7⟩ : GeoItem)].map (fun it => shape it.geometry)).map
            bufferZero)),
        (listMin ([(⟨[(0, 0)], 7⟩ : GeoItem)].map (fun it => it.datetime)),
          listMax ([(⟨[(0, 0)], 7⟩ : GeoItem)].map (fun it => it.datetime)))) :=
  claim_C8_extent.1 [⟨[(0, 0)], 7⟩] (by simp)

end Gsemantique
